import Mathlib

/-!
Shallow embedding of the board state machine of `lucky_thirteen.py`:
the grid of number stacks, the cursor, the selection list, and the
select/win/lose/move/deselect/depth operations.  Randomness is modelled
by an explicit stream `rng : ℕ → ℤ` of the values `randint(1, max_number)`
would return, consumed in call order.
-/

namespace LuckyThirteen

/-- Board coordinates (`Coordinates = Tuple[int, int]`). -/
abbrev Coordinates := ℤ × ℤ

/-- `max_number: int = 13`: the maximum randomly generated number and the target sum. -/
def max_number : ℤ := 13

/-- `self.board_size: int = 5` from `Game.__init__`. -/
def board_size : ℕ := 5

/-- `self.board_depth: int = max_number` from `Game.__init__`. -/
def board_depth : ℕ := 13

/-- `board_depth` is `max_number`, as assigned in `Game.__init__`. -/
theorem board_depth_eq_max_number : (board_depth : ℤ) = max_number := rfl

/-- The mutable board state: the `numbers` dict (as a total function on
coordinates; keys the program never writes stay at `[]`), the `selected`
list and the cursor `x`, `y`. -/
structure Board where
  numbers : Coordinates → List ℤ
  selected : List Coordinates
  x : ℤ
  y : ℤ

/-- `Board.coords`: the current coordinates `(x, y)`. -/
def Board.coords (b : Board) : Coordinates := (b.x, b.y)

/-- `Board.empty_tile`: `self.numbers[self.coords] == []`. -/
def Board.empty_tile (b : Board) : Bool := b.numbers b.coords == []

/-- Python `stack[-1]`.  The source only evaluates it on non-empty stacks
(an empty stack would raise `IndexError`); the default `0` is never relevant
under the callers' non-emptiness preconditions. -/
def top (l : List ℤ) : ℤ := l.getLastD 0

/-- Python `stack[-1] = v` (only executed on non-empty stacks in the source). -/
def setLast (l : List ℤ) (v : ℤ) : List ℤ := l.dropLast ++ [v]

/-- Dict assignment `numbers[c] = l`. -/
def updateCell (nums : Coordinates → List ℤ) (c : Coordinates) (l : List ℤ) :
    Coordinates → List ℤ :=
  fun d => if d = c then l else nums d

/-- The presentation-layer effect of each operation: which sound is played,
or which level transition happens (`gameWon` stands for
`replace_level(win_level)`). -/
inductive Event where
  | fail
  | selectSound
  | winSound
  | gameWon
  | loseSound
  | randomise
  | wall
  | deselect
  | wild
  | spoken (n : ℤ)
  deriving DecidableEq

/-- `Game.show_selection`: announce the current tile (select sound if the
tile is already selected, `wild.wav` if empty, else the top number). -/
def show_selection (b : Board) : Event :=
  if b.coords ∈ b.selected then Event.selectSound
  else if b.empty_tile then Event.wild
  else Event.spoken (top (b.numbers b.coords))

/-- The coordinates the population loops of `MainLevel.on_push` visit, in
loop order (`for x in range(board_size): for y in range(board_size)`). -/
def gridCoords : List Coordinates :=
  (List.range board_size).flatMap fun x =>
    (List.range board_size).map fun y => ((x : ℤ), (y : ℤ))

/-- One cell's freshly generated stack: `board_depth` successive draws
starting at stream position `i` (`for z in range(board_depth): append(randint(...))`). -/
def fillCell (rng : ℕ → ℤ) (i : ℕ) : List ℤ :=
  (List.range board_depth).map fun z => rng (i + z)

/-- The population loops: assign each visited cell a fresh stack, consuming
`board_depth` draws per cell in visit order. -/
def fillCells (rng : ℕ → ℤ) (cs : List Coordinates) (i : ℕ)
    (nums : Coordinates → List ℤ) : Coordinates → List ℤ :=
  match cs with
  | [] => nums
  | c :: rest => fillCells rng rest (i + board_depth) (updateCell nums c (fillCell rng i))

/-- `MainLevel.on_push`: regenerate every grid cell's stack.  The cursor and
`selected` are not touched by the source's loops. -/
def on_push (rng : ℕ → ℤ) (b : Board) : Board :=
  { b with numbers := fillCells rng gridCoords 0 b.numbers }

/-- The pops of `Game.win`: `for c in selected: numbers[c].pop()`. -/
def popSelected (sel : List Coordinates) (nums : Coordinates → List ℤ) :
    Coordinates → List ℤ :=
  match sel with
  | [] => nums
  | c :: rest => popSelected rest (updateCell nums c ((nums c).dropLast))

/-- The pushes of `Game.lose`:
`for c in selected: numbers[c].append(randint(1, max_number))`. -/
def pushSelected (rng : ℕ → ℤ) (i : ℕ) (sel : List Coordinates)
    (nums : Coordinates → List ℤ) : Coordinates → List ℤ :=
  match sel with
  | [] => nums
  | c :: rest => pushSelected rng (i + 1) rest (updateCell nums c (nums c ++ [rng i]))

/-- `any(self.board.numbers.values())`: after population the dict's keys are
exactly `gridCoords`, and a Python list is truthy iff non-empty. -/
def anyNumbers (nums : Coordinates → List ℤ) : Bool :=
  gridCoords.any fun c => !(nums c).isEmpty

/-- `Game.win`: pop every selected stack, clear `selected`, then either play
`win.wav` (some stack remains) or switch to the win level (full clear). -/
def win (b : Board) : Board × Event :=
  let nums := popSelected b.selected b.numbers
  ({ b with numbers := nums, selected := [] },
    if anyNumbers nums then Event.winSound else Event.gameWon)

/-- `Game.lose`: play `lose.wav`, push a fresh draw onto every selected
stack, clear `selected`. -/
def lose (rng : ℕ → ℤ) (b : Board) : Board :=
  { b with numbers := pushSelected rng 0 b.selected b.numbers, selected := [] }

/-- The running value of `Game.check_selection`:
`for c in selected: value += numbers[c][-1]`. -/
def selectionSum (b : Board) : ℤ :=
  (b.selected.map fun c => top (b.numbers c)).sum

/-- `Game.check_selection`: win at `value == max_number`, lose at
`value > max_number`, else play `select.wav`. -/
def check_selection (rng : ℕ → ℤ) (b : Board) : Board × Event :=
  if selectionSum b = max_number then win b
  else if max_number < selectionSum b then (lose rng b, Event.loseSound)
  else (b, Event.selectSound)

/-- `select_tile`: the full selection action, including the three-way
empty-tile branch. -/
def select_tile (rng : ℕ → ℤ) (b : Board) : Board × Event :=
  if b.coords ∈ b.selected then (b, Event.fail)
  else if b.empty_tile then
    if 2 ≤ b.selected.length then win b
    else if b.selected.length = 1 then
      ({ b with
          numbers := updateCell b.numbers b.selected.headI
            (setLast (b.numbers b.selected.headI) (rng 0)),
          selected := [] },
        Event.randomise)
    else
      let b' : Board :=
        { b with numbers := updateCell b.numbers b.coords (b.numbers b.coords ++ [rng 0]) }
      ({ b' with selected := [] }, show_selection b')
  else
    check_selection rng { b with selected := b.selected ++ [b.coords] }

/-- `left`: blocked at `x == 0` (`if not game.board.x`), else decrement `x`. -/
def left (b : Board) : Board × Event :=
  if b.x = 0 then (b, Event.wall)
  else
    let b' : Board := { b with x := b.x - 1 }
    (b', show_selection b')

/-- `right`: blocked at `x == board_size - 1`, else increment `x`. -/
def right (b : Board) : Board × Event :=
  if b.x = (board_size : ℤ) - 1 then (b, Event.wall)
  else
    let b' : Board := { b with x := b.x + 1 }
    (b', show_selection b')

/-- `forward`: blocked at `y == board_size - 1`, else increment `y`. -/
def forward (b : Board) : Board × Event :=
  if b.y = (board_size : ℤ) - 1 then (b, Event.wall)
  else
    let b' : Board := { b with y := b.y + 1 }
    (b', show_selection b')

/-- `backwards`: blocked at `y == 0` (`if not game.board.y`), else decrement `y`. -/
def backwards (b : Board) : Board × Event :=
  if b.y = 0 then (b, Event.wall)
  else
    let b' : Board := { b with y := b.y - 1 }
    (b', show_selection b')

/-- `deselect_tiles`: fail sound when nothing is selected, else clear. -/
def deselect_tiles (b : Board) : Board × Event :=
  if b.selected = [] then (b, Event.fail)
  else ({ b with selected := [] }, Event.deselect)

/-- `show_depth`: `if not l or l > max_number: fail` else speak the depth. -/
def show_depth (b : Board) : Event :=
  if (b.numbers b.coords).length = 0 ∨ max_number < ((b.numbers b.coords).length : ℤ)
  then Event.fail
  else Event.spoken ((b.numbers b.coords).length : ℤ)

/-- The player-triggerable operations on the board. -/
inductive Op where
  | push
  | left
  | right
  | forward
  | backwards
  | select
  | deselect
  | depth

/-- One dispatched input event: the state transition plus the emitted sound. -/
def step (op : Op) (rng : ℕ → ℤ) (b : Board) : Board × Event :=
  match op with
  | Op.push => (on_push rng b, show_selection (on_push rng b))
  | Op.left => left b
  | Op.right => right b
  | Op.forward => forward b
  | Op.backwards => backwards b
  | Op.select => select_tile rng b
  | Op.deselect => deselect_tiles b
  | Op.depth => (b, show_depth b)

/-- The initial `Board` (class attributes: empty dict, nothing selected,
cursor at the origin). -/
def initialBoard : Board :=
  { numbers := fun _ => [], selected := [], x := 0, y := 0 }

/-- Board states reachable from the initial state by dispatched operations. -/
inductive Reachable : Board → Prop where
  | init : Reachable initialBoard
  | next (op : Op) (rng : ℕ → ℤ) (b : Board) :
      Reachable b → Reachable (step op rng b).1

/-- Cursor in `[0, board_size) × [0, board_size)`. -/
def inBounds (b : Board) : Prop :=
  0 ≤ b.x ∧ b.x < (board_size : ℤ) ∧ 0 ≤ b.y ∧ b.y < (board_size : ℤ)

/-- The selection invariant: no duplicates, and every selected cell's stack
is (still) non-empty. -/
def Inv (b : Board) : Prop :=
  b.selected.Nodup ∧ ∀ c ∈ b.selected, b.numbers c ≠ []

theorem updateCell_same (nums : Coordinates → List ℤ) (c : Coordinates) (l : List ℤ) :
    updateCell nums c l c = l := by
  simp [updateCell]

theorem updateCell_other (nums : Coordinates → List ℤ) (c : Coordinates) (l : List ℤ)
    (d : Coordinates) (h : d ≠ c) : updateCell nums c l d = nums d := by
  simp [updateCell, h]

theorem popSelected_not_mem (sel : List Coordinates) (nums : Coordinates → List ℤ)
    (c : Coordinates) (h : c ∉ sel) : popSelected sel nums c = nums c := by
  induction sel generalizing nums with
  | nil => rfl
  | cons d rest ih =>
    simp only [List.mem_cons, not_or] at h
    rw [popSelected, ih _ h.2]
    exact updateCell_other _ _ _ _ h.1

theorem popSelected_mem (sel : List Coordinates) (nums : Coordinates → List ℤ)
    (c : Coordinates) (hnd : sel.Nodup) (h : c ∈ sel) :
    popSelected sel nums c = (nums c).dropLast := by
  induction sel generalizing nums with
  | nil => cases h
  | cons d rest ih =>
    rw [popSelected]
    rcases List.mem_cons.mp h with rfl | hc
    · rw [popSelected_not_mem rest _ c (List.nodup_cons.mp hnd).1, updateCell_same]
    · have hcd : c ≠ d := by
        rintro rfl
        exact (List.nodup_cons.mp hnd).1 hc
      rw [ih _ (List.nodup_cons.mp hnd).2 hc, updateCell_other _ _ _ _ hcd]

theorem pushSelected_not_mem (rng : ℕ → ℤ) (i : ℕ) (sel : List Coordinates)
    (nums : Coordinates → List ℤ) (c : Coordinates) (h : c ∉ sel) :
    pushSelected rng i sel nums c = nums c := by
  induction sel generalizing nums i with
  | nil => rfl
  | cons d rest ih =>
    simp only [List.mem_cons, not_or] at h
    rw [pushSelected, ih _ _ h.2]
    exact updateCell_other _ _ _ _ h.1

theorem pushSelected_mem (rng : ℕ → ℤ) (i : ℕ) (sel : List Coordinates)
    (nums : Coordinates → List ℤ) (c : Coordinates) (hnd : sel.Nodup) (h : c ∈ sel) :
    ∃ j : ℕ, pushSelected rng i sel nums c = nums c ++ [rng j] := by
  induction sel generalizing nums i with
  | nil => cases h
  | cons d rest ih =>
    rw [pushSelected]
    rcases List.mem_cons.mp h with rfl | hc
    · refine ⟨i, ?_⟩
      rw [pushSelected_not_mem rng _ rest _ c (List.nodup_cons.mp hnd).1, updateCell_same]
    · have hcd : c ≠ d := by
        rintro rfl
        exact (List.nodup_cons.mp hnd).1 hc
      obtain ⟨j, hj⟩ := ih (i + 1) _ (List.nodup_cons.mp hnd).2 hc
      exact ⟨j, by rw [hj, updateCell_other _ _ _ _ hcd]⟩

theorem fillCells_not_mem (rng : ℕ → ℤ) (cs : List Coordinates) (i : ℕ)
    (nums : Coordinates → List ℤ) (c : Coordinates) (h : c ∉ cs) :
    fillCells rng cs i nums c = nums c := by
  induction cs generalizing nums i with
  | nil => rfl
  | cons d rest ih =>
    simp only [List.mem_cons, not_or] at h
    rw [fillCells, ih _ _ h.2]
    exact updateCell_other _ _ _ _ h.1

theorem fillCells_mem (rng : ℕ → ℤ) (cs : List Coordinates) (i : ℕ)
    (nums : Coordinates → List ℤ) (c : Coordinates) (hnd : cs.Nodup) (h : c ∈ cs) :
    ∃ j : ℕ, fillCells rng cs i nums c = fillCell rng j := by
  induction cs generalizing nums i with
  | nil => cases h
  | cons d rest ih =>
    rw [fillCells]
    rcases List.mem_cons.mp h with rfl | hc
    · refine ⟨i, ?_⟩
      rw [fillCells_not_mem rng rest _ _ c (List.nodup_cons.mp hnd).1, updateCell_same]
    · have hcd : c ≠ d := by
        rintro rfl
        exact (List.nodup_cons.mp hnd).1 hc
      obtain ⟨j, hj⟩ := ih (i + board_depth) _ (List.nodup_cons.mp hnd).2 hc
      exact ⟨j, by rw [hj]⟩

theorem fillCell_length (rng : ℕ → ℤ) (i : ℕ) : (fillCell rng i).length = board_depth := by
  simp [fillCell]

theorem fillCell_ne_nil (rng : ℕ → ℤ) (i : ℕ) : fillCell rng i ≠ [] := by
  intro h
  have h2 := fillCell_length rng i
  rw [h] at h2
  simp [board_depth] at h2

theorem fillCell_mem (rng : ℕ → ℤ) (i : ℕ) (v : ℤ) (h : v ∈ fillCell rng i) :
    ∃ z : ℕ, z < board_depth ∧ v = rng (i + z) := by
  simp only [fillCell, List.mem_map, List.mem_range] at h
  obtain ⟨z, hz, hv⟩ := h
  exact ⟨z, hz, hv.symm⟩

theorem fillCell_top (rng : ℕ → ℤ) (i : ℕ) :
    top (fillCell rng i) = rng (i + (board_depth - 1)) := rfl

theorem gridCoords_nodup : gridCoords.Nodup := by decide

theorem inv_win (b : Board) : Inv (win b).1 :=
  ⟨by simp [win], by simp [win]⟩

theorem inv_lose (rng : ℕ → ℤ) (b : Board) : Inv (lose rng b) :=
  ⟨by simp [lose], by simp [lose]⟩

theorem inv_check_selection (rng : ℕ → ℤ) (b : Board) (h : Inv b) :
    Inv (check_selection rng b).1 := by
  rw [check_selection]
  split
  · exact inv_win b
  · split
    · exact inv_lose rng b
    · exact h

theorem inv_on_push (rng : ℕ → ℤ) (b : Board) (h : Inv b) : Inv (on_push rng b) := by
  obtain ⟨h1, h2⟩ := h
  refine ⟨h1, ?_⟩
  intro c hc
  show fillCells rng gridCoords 0 b.numbers c ≠ []
  by_cases hg : c ∈ gridCoords
  · obtain ⟨j, hj⟩ := fillCells_mem rng gridCoords 0 b.numbers c gridCoords_nodup hg
    rw [hj]
    exact fillCell_ne_nil rng j
  · rw [fillCells_not_mem rng gridCoords 0 b.numbers c hg]
    exact h2 c hc

theorem inv_select_tile (rng : ℕ → ℤ) (b : Board) (h : Inv b) :
    Inv (select_tile rng b).1 := by
  rw [select_tile]
  by_cases h1 : b.coords ∈ b.selected
  · rw [if_pos h1]
    exact h
  · rw [if_neg h1]
    by_cases h2 : b.empty_tile = true
    · rw [if_pos h2]
      by_cases h3 : 2 ≤ b.selected.length
      · rw [if_pos h3]
        exact inv_win b
      · rw [if_neg h3]
        by_cases h4 : b.selected.length = 1
        · rw [if_pos h4]
          exact ⟨List.nodup_nil, by simp⟩
        · rw [if_neg h4]
          exact ⟨List.nodup_nil, by simp⟩
    · rw [if_neg h2]
      apply inv_check_selection
      constructor
      · rw [← List.concat_eq_append]
        exact h.1.concat h1
      · intro c hc
        rcases List.mem_append.mp hc with hc | hc
        · exact h.2 c hc
        · simp only [List.mem_singleton] at hc
          subst hc
          simpa [Board.empty_tile] using h2

theorem inv_step (op : Op) (rng : ℕ → ℤ) (b : Board) (h : Inv b) :
    Inv (step op rng b).1 := by
  cases op with
  | push => exact inv_on_push rng b h
  | left =>
    simp only [step, LuckyThirteen.left]
    split
    · exact h
    · exact h
  | right =>
    simp only [step, LuckyThirteen.right]
    split
    · exact h
    · exact h
  | forward =>
    simp only [step, LuckyThirteen.forward]
    split
    · exact h
    · exact h
  | backwards =>
    simp only [step, LuckyThirteen.backwards]
    split
    · exact h
    · exact h
  | select => exact inv_select_tile rng b h
  | deselect =>
    simp only [step, deselect_tiles]
    split
    · exact h
    · exact ⟨List.nodup_nil, by simp⟩
  | depth => exact h

theorem reachable_inv (b : Board) (h : Reachable b) : Inv b := by
  induction h with
  | init => exact ⟨List.nodup_nil, by simp [initialBoard]⟩
  | next op rng b hb ih => exact inv_step op rng b ih

theorem mem_selected_after_select (rng : ℕ → ℤ) (b : Board) (c : Coordinates)
    (hc : c ∈ ((select_tile rng b).1).selected) :
    c ∈ b.selected ∨ (c = b.coords ∧ b.empty_tile = false) := by
  rw [select_tile] at hc
  by_cases h1 : b.coords ∈ b.selected
  · rw [if_pos h1] at hc
    exact Or.inl hc
  · rw [if_neg h1] at hc
    by_cases h2 : b.empty_tile = true
    · rw [if_pos h2] at hc
      by_cases h3 : 2 ≤ b.selected.length
      · rw [if_pos h3] at hc
        simp [win] at hc
      · rw [if_neg h3] at hc
        by_cases h4 : b.selected.length = 1
        · rw [if_pos h4] at hc
          simp at hc
        · rw [if_neg h4] at hc
          simp at hc
    · rw [if_neg h2] at hc
      rw [check_selection] at hc
      split at hc
      · simp [win] at hc
      · split at hc
        · simp [lose] at hc
        · rcases List.mem_append.mp hc with h | h
          · exact Or.inl h
          · simp only [List.mem_singleton] at h
            exact Or.inr ⟨h, by simpa using h2⟩

theorem select_tile_empty_clears (rng : ℕ → ℤ) (b : Board)
    (h1 : b.coords ∉ b.selected) (h2 : b.empty_tile = true) :
    ((select_tile rng b).1).selected = [] := by
  rw [select_tile, if_neg h1, if_pos h2]
  by_cases h3 : 2 ≤ b.selected.length
  · rw [if_pos h3]
    simp [win]
  · rw [if_neg h3]
    by_cases h4 : b.selected.length = 1
    · rw [if_pos h4]
    · rw [if_neg h4]

/-- C1: selecting a non-empty, not-yet-selected cell appends the cursor to
`selected`, computes the sum of top values of all selected cells, and then
exactly one of the three outcomes occurs: win resolution at sum `= 13`,
lose resolution at sum `> 13`, and otherwise no resolution and the
progress/select sound. -/
theorem C1_select_trichotomy (rng : ℕ → ℤ) (b : Board)
    (h1 : b.coords ∉ b.selected) (h2 : b.empty_tile = false) :
    (select_tile rng b =
      check_selection rng { b with selected := b.selected ++ [b.coords] }) ∧
    (selectionSum { b with selected := b.selected ++ [b.coords] } = max_number →
      select_tile rng b = win { b with selected := b.selected ++ [b.coords] }) ∧
    (max_number < selectionSum { b with selected := b.selected ++ [b.coords] } →
      select_tile rng b =
        (lose rng { b with selected := b.selected ++ [b.coords] }, Event.loseSound)) ∧
    (selectionSum { b with selected := b.selected ++ [b.coords] } < max_number →
      select_tile rng b =
        ({ b with selected := b.selected ++ [b.coords] }, Event.selectSound)) := by
  have hst : select_tile rng b =
      check_selection rng { b with selected := b.selected ++ [b.coords] } := by
    rw [select_tile, if_neg h1, if_neg (by simp [h2])]
  refine ⟨hst, ?_, ?_, ?_⟩
  · intro hv
    rw [hst, check_selection, if_pos hv]
  · intro hv
    rw [hst, check_selection, if_neg (by omega), if_pos hv]
  · intro hv
    rw [hst, check_selection, if_neg (by omega), if_neg (by omega)]

def rngOne : ℕ → ℤ := fun _ => 1

def bTops : Board :=
  { numbers := fun c =>
      if c = ((0 : ℤ), (0 : ℤ)) then [6] else if c = ((1 : ℤ), (0 : ℤ)) then [7] else [],
    selected := [((1 : ℤ), (0 : ℤ))], x := 0, y := 0 }

/-- Witness for C1 at a board whose two top values sum to exactly 13. -/
theorem C1_select_trichotomy_witness :
    select_tile rngOne bTops = win { bTops with selected := bTops.selected ++ [bTops.coords] } :=
  (C1_select_trichotomy rngOne bTops (by decide) (by decide)).2.1 (by decide)

/-- C6: on every reachable state, `selected` has no duplicate coordinates
and only coordinates whose stack is non-empty; a coordinate enters
`selected` only while its stack is non-empty, and the empty-cell branch of
`select_tile` always leaves `selected` empty. -/
theorem C6_selected_invariant (b : Board) (h : Reachable b) :
    b.selected.Nodup ∧ (∀ c ∈ b.selected, b.numbers c ≠ []) ∧
    (∀ rng : ℕ → ℤ, b.coords ∈ b.selected → select_tile rng b = (b, Event.fail)) ∧
    (∀ rng : ℕ → ℤ, ∀ c : Coordinates, c ∈ ((select_tile rng b).1).selected →
      c ∈ b.selected ∨ (c = b.coords ∧ b.empty_tile = false)) ∧
    (∀ rng : ℕ → ℤ, b.coords ∉ b.selected → b.empty_tile = true →
      ((select_tile rng b).1).selected = []) := by
  obtain ⟨hnd, hne⟩ := reachable_inv b h
  exact ⟨hnd, hne, fun rng hm => by rw [select_tile, if_pos hm],
    fun rng c hc => mem_selected_after_select rng b c hc,
    fun rng ha hb => select_tile_empty_clears rng b ha hb⟩

/-- Witness for C6 at the initial board. -/
theorem C6_selected_invariant_witness :
    initialBoard.selected.Nodup ∧ ((select_tile rngOne initialBoard).1).selected = [] := by
  obtain ⟨hnd, hne, hnoop, hmem, hclr⟩ := C6_selected_invariant initialBoard Reachable.init
  exact ⟨hnd, hclr rngOne (by decide) (by decide)⟩

/-- C9: every failing operation leaves the whole board state untouched:
re-selecting an already selected tile, deselecting with nothing selected,
and each of the four blocked moves return the input board with only a
failure sound. -/
theorem C9_failures_atomic (rng : ℕ → ℤ) (b : Board) :
    (b.coords ∈ b.selected → select_tile rng b = (b, Event.fail)) ∧
    (b.selected = [] → deselect_tiles b = (b, Event.fail)) ∧
    (b.x = 0 → LuckyThirteen.left b = (b, Event.wall)) ∧
    (b.x = (board_size : ℤ) - 1 → LuckyThirteen.right b = (b, Event.wall)) ∧
    (b.y = (board_size : ℤ) - 1 → LuckyThirteen.forward b = (b, Event.wall)) ∧
    (b.y = 0 → LuckyThirteen.backwards b = (b, Event.wall)) := by
  refine ⟨?_, ?_, ?_, ?_, ?_, ?_⟩
  · intro h
    rw [select_tile, if_pos h]
  · intro h
    rw [deselect_tiles, if_pos h]
  · intro h
    rw [LuckyThirteen.left, if_pos h]
  · intro h
    rw [LuckyThirteen.right, if_pos h]
  · intro h
    rw [LuckyThirteen.forward, if_pos h]
  · intro h
    rw [LuckyThirteen.backwards, if_pos h]

def bCorner : Board :=
  { numbers := fun _ => [1], selected := [((0 : ℤ), (0 : ℤ))], x := 0, y := 0 }

def bFar : Board :=
  { numbers := fun _ => [1], selected := [], x := 4, y := 4 }

/-- Witness for C9 at two concrete boards hitting all six failure branches. -/
theorem C9_failures_atomic_witness :
    select_tile rngOne bCorner = (bCorner, Event.fail) ∧
    LuckyThirteen.left bCorner = (bCorner, Event.wall) ∧
    LuckyThirteen.backwards bCorner = (bCorner, Event.wall) ∧
    deselect_tiles bFar = (bFar, Event.fail) ∧
    LuckyThirteen.right bFar = (bFar, Event.wall) ∧
    LuckyThirteen.forward bFar = (bFar, Event.wall) :=
  ⟨(C9_failures_atomic rngOne bCorner).1 (by decide),
    (C9_failures_atomic rngOne bCorner).2.2.1 (by decide),
    (C9_failures_atomic rngOne bCorner).2.2.2.2.2 (by decide),
    (C9_failures_atomic rngOne bFar).2.1 (by decide),
    (C9_failures_atomic rngOne bFar).2.2.2.1 (by decide),
    (C9_failures_atomic rngOne bFar).2.2.2.2.1 (by decide)⟩

theorem top_concat (l : List ℤ) (v : ℤ) : top (l ++ [v]) = v := by
  simp [top]

theorem top_setLast (l : List ℤ) (v : ℤ) : top (setLast l v) = v :=
  top_concat l.dropLast v

theorem setLast_length (l : List ℤ) (v : ℤ) (h : l ≠ []) :
    (setLast l v).length = l.length := by
  have hp : 0 < l.length := List.length_pos.mpr h
  simp only [setLast, List.length_append, List.length_dropLast, List.length_singleton]
  omega

/-- C2: selecting an empty cell branches on `len(selected)`: with none
selected a fresh draw in `[1, 13]` is pushed onto the empty stack and
`selected` stays empty; with exactly one selected the top of that cell is
overwritten (length unchanged) by a fresh draw and `selected` is cleared;
with two or more selected, win resolution runs on the existing `selected`
and the empty cell is never added. -/
theorem C2_empty_tile_branches (rng : ℕ → ℤ) (b : Board)
    (h1 : b.coords ∉ b.selected) (h2 : b.empty_tile = true)
    (h3 : ∀ c ∈ b.selected, b.numbers c ≠ [])
    (hr : 1 ≤ rng 0 ∧ rng 0 ≤ max_number) :
    (b.selected = [] →
      ((select_tile rng b).1).numbers b.coords = b.numbers b.coords ++ [rng 0] ∧
      (∀ c : Coordinates, c ≠ b.coords → ((select_tile rng b).1).numbers c = b.numbers c) ∧
      ((select_tile rng b).1).selected = [] ∧
      (select_tile rng b).2 = Event.spoken (rng 0) ∧
      1 ≤ rng 0 ∧ rng 0 ≤ max_number) ∧
    (b.selected.length = 1 →
      (((select_tile rng b).1).numbers b.selected.headI).length
          = (b.numbers b.selected.headI).length ∧
      top (((select_tile rng b).1).numbers b.selected.headI) = rng 0 ∧
      (∀ c : Coordinates, c ≠ b.selected.headI →
        ((select_tile rng b).1).numbers c = b.numbers c) ∧
      ((select_tile rng b).1).selected = [] ∧
      (select_tile rng b).2 = Event.randomise ∧
      1 ≤ rng 0 ∧ rng 0 ≤ max_number) ∧
    (2 ≤ b.selected.length → select_tile rng b = win b) := by
  refine ⟨?_, ?_, ?_⟩
  · intro h0
    have hst : select_tile rng b =
        ({ b with
            numbers := updateCell b.numbers b.coords (b.numbers b.coords ++ [rng 0]),
            selected := [] },
          show_selection
            { b with
                numbers := updateCell b.numbers b.coords (b.numbers b.coords ++ [rng 0]) }) := by
      rw [select_tile, if_neg h1, if_pos h2, if_neg (by simp [h0]), if_neg (by simp [h0])]
    refine ⟨?_, ?_, ?_, ?_, hr.1, hr.2⟩
    · rw [hst]
      exact updateCell_same _ _ _
    · intro c hc
      rw [hst]
      exact updateCell_other _ _ _ _ hc
    · rw [hst]
    · rw [hst]
      show show_selection
        { b with numbers := updateCell b.numbers b.coords (b.numbers b.coords ++ [rng 0]) }
        = Event.spoken (rng 0)
      simp [show_selection, h0, Board.empty_tile, Board.coords, updateCell, top_concat]
  · intro h0
    obtain ⟨c0, hc0⟩ := List.length_eq_one.mp h0
    have hhead : b.selected.headI = c0 := by
      rw [hc0]
      rfl
    have hne : b.numbers c0 ≠ [] := h3 c0 (by rw [hc0]; exact List.mem_singleton_self c0)
    have hst : select_tile rng b =
        ({ b with
            numbers := updateCell b.numbers b.selected.headI
              (setLast (b.numbers b.selected.headI) (rng 0)),
            selected := [] },
          Event.randomise) := by
      rw [select_tile, if_neg h1, if_pos h2, if_neg (by omega), if_pos h0]
    refine ⟨?_, ?_, ?_, ?_, ?_, hr.1, hr.2⟩
    · rw [hst]
      show (updateCell b.numbers b.selected.headI
          (setLast (b.numbers b.selected.headI) (rng 0)) b.selected.headI).length
        = (b.numbers b.selected.headI).length
      rw [updateCell_same]
      exact setLast_length _ _ (by rw [hhead]; exact hne)
    · rw [hst]
      show top (updateCell b.numbers b.selected.headI
          (setLast (b.numbers b.selected.headI) (rng 0)) b.selected.headI) = rng 0
      rw [updateCell_same]
      exact top_setLast _ _
    · intro c hc
      rw [hst]
      exact updateCell_other _ _ _ _ hc
    · rw [hst]
    · rw [hst]
  · intro h0
    rw [select_tile, if_neg h1, if_pos h2, if_pos h0]

def rngFour : ℕ → ℤ := fun _ => 4

def bReroll : Board :=
  { numbers := fun c => if c = ((1 : ℤ), (1 : ℤ)) then [5] else [],
    selected := [((1 : ℤ), (1 : ℤ))], x := 0, y := 0 }

/-- Witness for C2: rerolling with exactly one selected cell overwrites its
top value and clears the selection. -/
theorem C2_empty_tile_branches_witness :
    top (((select_tile rngFour bReroll).1).numbers ((1 : ℤ), (1 : ℤ))) = 4 ∧
    (((select_tile rngFour bReroll).1).numbers ((1 : ℤ), (1 : ℤ))).length = 1 ∧
    ((select_tile rngFour bReroll).1).selected = [] := by
  obtain ⟨hlen, htop, hother, hsel, hev, hlo, hhi⟩ :=
    (C2_empty_tile_branches rngFour bReroll (by decide) (by decide) (by decide)
      ⟨by decide, by decide⟩).2.1 (by decide)
  refine ⟨htop, ?_, hsel⟩
  rw [show bReroll.selected.headI = ((1 : ℤ), (1 : ℤ)) from rfl] at hlen
  rw [hlen]
  decide

/-- C3: win resolution pops exactly one element from every selected stack
and lose resolution pushes exactly one freshly drawn value in `[1, 13]`
onto every selected stack; both clear `selected` and leave unselected
stacks untouched. -/
theorem C3_win_lose_resolution (rng : ℕ → ℤ) (b : Board)
    (hnd : b.selected.Nodup) (hne : ∀ c ∈ b.selected, b.numbers c ≠ [])
    (hr : ∀ n : ℕ, 1 ≤ rng n ∧ rng n ≤ max_number) :
    (∀ c ∈ b.selected, (((win b).1).numbers c).length + 1 = (b.numbers c).length) ∧
    (∀ c : Coordinates, c ∉ b.selected → ((win b).1).numbers c = b.numbers c) ∧
    ((win b).1).selected = [] ∧
    (∀ c ∈ b.selected, ((lose rng b).numbers c).length = (b.numbers c).length + 1 ∧
      ∃ v : ℤ, 1 ≤ v ∧ v ≤ max_number ∧ (lose rng b).numbers c = b.numbers c ++ [v]) ∧
    (∀ c : Coordinates, c ∉ b.selected → (lose rng b).numbers c = b.numbers c) ∧
    (lose rng b).selected = [] := by
  refine ⟨?_, ?_, rfl, ?_, ?_, rfl⟩
  · intro c hc
    show (popSelected b.selected b.numbers c).length + 1 = (b.numbers c).length
    rw [popSelected_mem b.selected b.numbers c hnd hc, List.length_dropLast]
    have hp : 0 < (b.numbers c).length := List.length_pos.mpr (hne c hc)
    omega
  · intro c hc
    exact popSelected_not_mem b.selected b.numbers c hc
  · intro c hc
    obtain ⟨j, hj⟩ := pushSelected_mem rng 0 b.selected b.numbers c hnd hc
    have hlen : (pushSelected rng 0 b.selected b.numbers c).length
        = (b.numbers c).length + 1 := by
      rw [hj]
      simp
    exact ⟨hlen, rng j, (hr j).1, (hr j).2, hj⟩
  · intro c hc
    exact pushSelected_not_mem rng 0 b.selected b.numbers c hc

def rngThree : ℕ → ℤ := fun _ => 3

def bTwoSel : Board :=
  { numbers := fun c =>
      if c = ((0 : ℤ), (0 : ℤ)) then [6] else if c = ((1 : ℤ), (0 : ℤ)) then [7, 2] else [13],
    selected := [((0 : ℤ), (0 : ℤ)), ((1 : ℤ), (0 : ℤ))], x := 1, y := 0 }

/-- Witness for C3 at a board with two selected cells. -/
theorem C3_win_lose_resolution_witness :
    (((win bTwoSel).1).numbers ((0 : ℤ), (0 : ℤ))).length + 1 = 1 ∧
    ((win bTwoSel).1).numbers ((2 : ℤ), (2 : ℤ)) = [13] ∧
    ((lose rngThree bTwoSel).numbers ((1 : ℤ), (0 : ℤ))).length = 3 ∧
    (lose rngThree bTwoSel).selected = [] := by
  obtain ⟨hw1, hw2, hw3, hl1, hl2, hl3⟩ :=
    C3_win_lose_resolution rngThree bTwoSel (by decide) (by decide)
      (by intro n; exact ⟨by show (1 : ℤ) ≤ 3; norm_num, by show (3 : ℤ) ≤ 13; norm_num⟩)
  exact ⟨hw1 ((0 : ℤ), (0 : ℤ)) (by decide),
    by rw [hw2 ((2 : ℤ), (2 : ℤ)) (by decide)]; decide,
    (hl1 ((1 : ℤ), (0 : ℤ)) (by decide)).1.trans (by decide),
    hl3⟩

theorem anyNumbers_eq_false_iff (nums : Coordinates → List ℤ) :
    anyNumbers nums = false ↔ ∀ c ∈ gridCoords, nums c = [] := by
  rw [anyNumbers, Bool.eq_false_iff]
  constructor
  · intro h c hc
    by_contra hne
    refine h (List.any_eq_true.mpr ⟨c, hc, ?_⟩)
    cases hnc : nums c with
    | nil => exact absurd hnc hne
    | cons a l => simp
  · intro h hany
    obtain ⟨c, hc, hp⟩ := List.any_eq_true.mp hany
    rw [h c hc] at hp
    simp at hp

/-- C4: `replace_level(win_level)` (the terminal game-won transition) fires
after a win resolution exactly when every grid cell's stack has become
empty; otherwise the non-terminal win sound plays. -/
theorem C4_game_won_iff (b : Board) :
    ((win b).2 = Event.gameWon ↔ ∀ c ∈ gridCoords, ((win b).1).numbers c = []) ∧
    ((win b).2 = Event.winSound ↔ ¬ ∀ c ∈ gridCoords, ((win b).1).numbers c = []) := by
  have hall : (∀ c ∈ gridCoords, ((win b).1).numbers c = []) ↔
      anyNumbers (popSelected b.selected b.numbers) = false :=
    (anyNumbers_eq_false_iff (popSelected b.selected b.numbers)).symm
  by_cases hA : anyNumbers (popSelected b.selected b.numbers) = true
  · have h2 : (win b).2 = Event.winSound := by
      show (if anyNumbers (popSelected b.selected b.numbers) = true then Event.winSound
        else Event.gameWon) = Event.winSound
      rw [if_pos hA]
    rw [h2, hall, hA]
    exact ⟨by decide, by decide⟩
  · have hA2 : anyNumbers (popSelected b.selected b.numbers) = false := by
      simpa using hA
    have h2 : (win b).2 = Event.gameWon := by
      show (if anyNumbers (popSelected b.selected b.numbers) = true then Event.winSound
        else Event.gameWon) = Event.gameWon
      rw [if_neg hA]
    rw [h2, hall, hA2]
    exact ⟨by decide, by decide⟩

/-- Witness for C4: at the initial (all-empty) board, win resolution takes
the terminal transition. -/
theorem C4_game_won_iff_witness : (win initialBoard).2 = Event.gameWon :=
  (C4_game_won_iff initialBoard).1.mpr (by decide)

def movedBoard : Board :=
  (step Op.forward rngOne (step Op.forward rngOne (step Op.forward rngOne
    (step Op.right rngOne (step Op.right rngOne initialBoard).1).1).1).1).1

/-- Counterexample to C5: repopulation reached with the cursor at `(2, 3)`
leaves the cursor at `(2, 3)`, not `(0, 0)`. -/
theorem C5_cursor_not_reset_counterexample :
    Reachable (on_push rngOne movedBoard) ∧
    ((on_push rngOne movedBoard).x, (on_push rngOne movedBoard).y) ≠ ((0 : ℤ), (0 : ℤ)) := by
  constructor
  · have h5 : Reachable movedBoard :=
      Reachable.next Op.forward rngOne _ (Reachable.next Op.forward rngOne _
        (Reachable.next Op.forward rngOne _ (Reachable.next Op.right rngOne _
          (Reachable.next Op.right rngOne _ Reachable.init))))
    exact Reachable.next Op.push rngOne movedBoard h5
  · decide

/-- C5 as amended: repopulation regenerates every grid cell's stack (to
depth `board_depth`) but leaves the cursor and `selected` exactly as they
were; it performs no reset of its own. -/
theorem C5_repopulation_state (rng : ℕ → ℤ) (b : Board) :
    (on_push rng b).x = b.x ∧ (on_push rng b).y = b.y ∧
    (on_push rng b).selected = b.selected ∧
    ∀ c ∈ gridCoords, ((on_push rng b).numbers c).length = board_depth := by
  refine ⟨rfl, rfl, rfl, ?_⟩
  intro c hc
  obtain ⟨j, hj⟩ := fillCells_mem rng gridCoords 0 b.numbers c gridCoords_nodup hc
  show (fillCells rng gridCoords 0 b.numbers c).length = board_depth
  rw [hj]
  exact fillCell_length rng j

/-- C7: with the cursor in bounds, each of the four moves either fails at
the wall (candidate coordinate out of `[0, board_size)`), leaving the
board unchanged, or moves the cursor exactly one unit to another
in-bounds coordinate. -/
theorem C7_moves_in_bounds (b : Board) (h : inBounds b) :
    (b.x - 1 < 0 → LuckyThirteen.left b = (b, Event.wall)) ∧
    (0 ≤ b.x - 1 → (LuckyThirteen.left b).1 = { b with x := b.x - 1 } ∧
      inBounds (LuckyThirteen.left b).1) ∧
    ((board_size : ℤ) ≤ b.x + 1 → LuckyThirteen.right b = (b, Event.wall)) ∧
    (b.x + 1 < (board_size : ℤ) → (LuckyThirteen.right b).1 = { b with x := b.x + 1 } ∧
      inBounds (LuckyThirteen.right b).1) ∧
    ((board_size : ℤ) ≤ b.y + 1 → LuckyThirteen.forward b = (b, Event.wall)) ∧
    (b.y + 1 < (board_size : ℤ) → (LuckyThirteen.forward b).1 = { b with y := b.y + 1 } ∧
      inBounds (LuckyThirteen.forward b).1) ∧
    (b.y - 1 < 0 → LuckyThirteen.backwards b = (b, Event.wall)) ∧
    (0 ≤ b.y - 1 → (LuckyThirteen.backwards b).1 = { b with y := b.y - 1 } ∧
      inBounds (LuckyThirteen.backwards b).1) := by
  obtain ⟨hx0, hx1, hy0, hy1⟩ := h
  have hbs : (board_size : ℤ) = 5 := rfl
  rw [hbs] at hx1 hy1
  refine ⟨?_, ?_, ?_, ?_, ?_, ?_, ?_, ?_⟩
  · intro hc
    rw [LuckyThirteen.left, if_pos (by omega : b.x = 0)]
  · intro hc
    have h1 : (LuckyThirteen.left b).1 = { b with x := b.x - 1 } := by
      rw [LuckyThirteen.left, if_neg (by omega : ¬ b.x = 0)]
    refine ⟨h1, ?_⟩
    rw [h1]
    show 0 ≤ b.x - 1 ∧ b.x - 1 < (board_size : ℤ) ∧ 0 ≤ b.y ∧ b.y < (board_size : ℤ)
    rw [hbs]
    exact ⟨by omega, by omega, hy0, hy1⟩
  · intro hc
    rw [hbs] at hc
    rw [LuckyThirteen.right, if_pos (by rw [hbs]; omega : b.x = (board_size : ℤ) - 1)]
  · intro hc
    rw [hbs] at hc
    have h1 : (LuckyThirteen.right b).1 = { b with x := b.x + 1 } := by
      rw [LuckyThirteen.right, if_neg (by rw [hbs]; omega : ¬ b.x = (board_size : ℤ) - 1)]
    refine ⟨h1, ?_⟩
    rw [h1]
    show 0 ≤ b.x + 1 ∧ b.x + 1 < (board_size : ℤ) ∧ 0 ≤ b.y ∧ b.y < (board_size : ℤ)
    rw [hbs]
    exact ⟨by omega, by omega, hy0, hy1⟩
  · intro hc
    rw [hbs] at hc
    rw [LuckyThirteen.forward, if_pos (by rw [hbs]; omega : b.y = (board_size : ℤ) - 1)]
  · intro hc
    rw [hbs] at hc
    have h1 : (LuckyThirteen.forward b).1 = { b with y := b.y + 1 } := by
      rw [LuckyThirteen.forward, if_neg (by rw [hbs]; omega : ¬ b.y = (board_size : ℤ) - 1)]
    refine ⟨h1, ?_⟩
    rw [h1]
    show 0 ≤ b.x ∧ b.x < (board_size : ℤ) ∧ 0 ≤ b.y + 1 ∧ b.y + 1 < (board_size : ℤ)
    rw [hbs]
    exact ⟨hx0, hx1, by omega, by omega⟩
  · intro hc
    rw [LuckyThirteen.backwards, if_pos (by omega : b.y = 0)]
  · intro hc
    have h1 : (LuckyThirteen.backwards b).1 = { b with y := b.y - 1 } := by
      rw [LuckyThirteen.backwards, if_neg (by omega : ¬ b.y = 0)]
    refine ⟨h1, ?_⟩
    rw [h1]
    show 0 ≤ b.x ∧ b.x < (board_size : ℤ) ∧ 0 ≤ b.y - 1 ∧ b.y - 1 < (board_size : ℤ)
    rw [hbs]
    exact ⟨hx0, hx1, by omega, by omega⟩

/-- Witness for C7 at the corner `(4, 4)`: right and forward are blocked,
left and backwards move and stay in bounds. -/
theorem C7_moves_in_bounds_witness :
    LuckyThirteen.right bFar = (bFar, Event.wall) ∧
    LuckyThirteen.forward bFar = (bFar, Event.wall) ∧
    inBounds (LuckyThirteen.left bFar).1 ∧
    inBounds (LuckyThirteen.backwards bFar).1 := by
  obtain ⟨hl1, hl2, hr1, hr2, hf1, hf2, hb1, hb2⟩ :=
    C7_moves_in_bounds bFar ⟨by decide, by decide, by decide, by decide⟩
  exact ⟨hr1 (by decide), hf1 (by decide), (hl2 (by decide)).2, (hb2 (by decide)).2⟩

/-- C8: population gives every grid coordinate a stack of exactly
`board_depth` (= `max_number`, the target) values, each a draw from the
random source with inclusive bounds `[1, max_number]`, in generation
order with the top of the stack being the last value generated. -/
theorem C8_population (rng : ℕ → ℤ) (b : Board) (c : Coordinates)
    (hr : ∀ n : ℕ, 1 ≤ rng n ∧ rng n ≤ max_number) (hc : c ∈ gridCoords) :
    ((on_push rng b).numbers c).length = board_depth ∧
    (board_depth : ℤ) = max_number ∧
    (∀ v ∈ (on_push rng b).numbers c, 1 ≤ v ∧ v ≤ max_number) ∧
    ∃ base : ℕ, (on_push rng b).numbers c
        = (List.range board_depth).map (fun z => rng (base + z)) ∧
      top ((on_push rng b).numbers c) = rng (base + (board_depth - 1)) := by
  obtain ⟨j, hj⟩ := fillCells_mem rng gridCoords 0 b.numbers c gridCoords_nodup hc
  have hnum : (on_push rng b).numbers c = fillCell rng j := hj
  refine ⟨?_, rfl, ?_, j, ?_, ?_⟩
  · rw [hnum]
    exact fillCell_length rng j
  · intro v hv
    rw [hnum] at hv
    obtain ⟨z, hz, hvz⟩ := fillCell_mem rng j v hv
    rw [hvz]
    exact hr (j + z)
  · rw [hnum]
    rfl
  · rw [hnum]
    exact fillCell_top rng j

def rngFive : ℕ → ℤ := fun _ => 5

/-- Witness for C8 at the origin cell with a constant random source. -/
theorem C8_population_witness :
    ((on_push rngFive initialBoard).numbers ((0 : ℤ), (0 : ℤ))).length = board_depth ∧
    top ((on_push rngFive initialBoard).numbers ((0 : ℤ), (0 : ℤ))) = 5 := by
  obtain ⟨hlen, hdep, hrange, base, hform, htop⟩ :=
    C8_population rngFive initialBoard ((0 : ℤ), (0 : ℤ))
      (by intro n; exact ⟨by show (1 : ℤ) ≤ 5; norm_num, by show (5 : ℤ) ≤ 13; norm_num⟩)
      (by decide)
  exact ⟨hlen, htop⟩

def rngSeven : ℕ → ℤ := fun _ => 7

def overfullBoard : Board :=
  (step Op.select rngSeven (step Op.right rngSeven
    (step Op.select rngSeven (step Op.push rngSeven initialBoard).1).1).1).1

/-- C10: the depth query speaks the stack depth exactly when
`1 ≤ len ≤ max_number` and plays the fail sound otherwise — in particular
also for depths above `max_number`, which are reachable because lose
resolution pushes onto stacks that may already hold `max_number` values. -/
theorem C10_depth_query (b : Board) :
    (show_depth b = Event.fail ↔
      ¬(1 ≤ (b.numbers b.coords).length ∧
        ((b.numbers b.coords).length : ℤ) ≤ max_number)) ∧
    ((1 ≤ (b.numbers b.coords).length ∧
        ((b.numbers b.coords).length : ℤ) ≤ max_number) →
      show_depth b = Event.spoken ((b.numbers b.coords).length : ℤ)) ∧
    Reachable overfullBoard ∧
    (overfullBoard.numbers overfullBoard.coords).length = board_depth + 1 ∧
    max_number < ((overfullBoard.numbers overfullBoard.coords).length : ℤ) ∧
    show_depth overfullBoard = Event.fail := by
  have hiff : ((b.numbers b.coords).length = 0 ∨
      max_number < ((b.numbers b.coords).length : ℤ)) ↔
      ¬(1 ≤ (b.numbers b.coords).length ∧
        ((b.numbers b.coords).length : ℤ) ≤ max_number) := by
    simp only [max_number]
    omega
  have hreach : Reachable overfullBoard :=
    Reachable.next Op.select rngSeven _ (Reachable.next Op.right rngSeven _
      (Reachable.next Op.select rngSeven _
        (Reachable.next Op.push rngSeven _ Reachable.init)))
  refine ⟨?_, ?_, hreach, by decide, by decide, by decide⟩
  · by_cases hcond : (b.numbers b.coords).length = 0 ∨
        max_number < ((b.numbers b.coords).length : ℤ)
    · rw [show_depth, if_pos hcond]
      exact iff_of_true rfl (hiff.mp hcond)
    · rw [show_depth, if_neg hcond]
      have hgood : 1 ≤ (b.numbers b.coords).length ∧
          ((b.numbers b.coords).length : ℤ) ≤ max_number := by
        by_contra hng
        exact hcond (hiff.mpr hng)
      exact iff_of_false (fun he => Event.noConfusion he) (not_not_intro hgood)
  · intro hgood
    rw [show_depth, if_neg (fun hcond => (hiff.mp hcond) hgood)]

/-- Witness for C10 at a board with a one-deep stack under the cursor. -/
theorem C10_depth_query_witness : show_depth bCorner = Event.spoken 1 :=
  (C10_depth_query bCorner).2.1 (by decide)

end LuckyThirteen
